import Mathlib

/-!
Verification of the HubSpot product-category enumeration-property updater
(`src/update_product_category_enum.py`).

The script's logic is embedded shallowly:

* `EnumOption` models an option of the enumeration property
  (`label`, `value`, `displayOrder`, `hidden`).
* `CatMap` models an insertion-ordered Python `dict[str, str]` as an
  association list; `catInsert` is `d[k] = v` (update in place if the key
  exists, else append), `catLookup` is `d.get(k)`.
* `computeOptions` is the pure option-list reconciliation of
  `update_enumeration_property` (lines 112-162): full replace when no
  `category_id` is given, delete when the mapping is empty, otherwise a
  single upsert of the mapping's first pair (both loop arms `break` after
  the first pair) followed by carrying through every existing option whose
  `value` is not among the mapping's values.
* `fetchPages` / `getProductCategories` model the pagination loop of
  `get_product_categories` (lines 75-98): pages are consumed in cursor
  order; an API error anywhere aborts and yields the empty mapping.
* `getObjectType` models `get_object_type` (lines 25-43).
-/

namespace HubspotSync

/-- An option of the enumeration property: `label`, `value`, `displayOrder`,
`hidden`, as read from / written to the property definition. -/
structure EnumOption where
  label : String
  value : String
  displayOrder : Int
  hidden : Bool
deriving DecidableEq, Repr

/-- A Python `dict[str, str]` in insertion order: the category name → id
mapping built by `get_product_categories`. -/
abbrev CatMap := List (String × String)

/-- `d[k] = v` on an insertion-ordered dict: overwrite in place when the key
is present, otherwise append at the end. -/
def catInsert : CatMap → String → String → CatMap
  | [], k, v => [(k, v)]
  | (k', v') :: rest, k, v =>
      if k' = k then (k, v) :: rest else (k', v') :: catInsert rest k v

/-- `d.get(k)` on an insertion-ordered dict. -/
def catLookup (m : CatMap) (k : String) : Option String :=
  (List.find? (fun p => p.1 = k) m).map Prod.snd

/-- The dict comprehension `{option.value: option for option in existing_options}`
looked up at `v`: on duplicate values the last option wins. -/
def existingLookup (existing : List EnumOption) (v : String) : Option EnumOption :=
  List.find? (fun o => o.value = v) existing.reverse

/-- The `action` field of the structured result returned by
`update_enumeration_property`. -/
inductive Action where
  | all
  | create
  | update
  | delete
deriving DecidableEq, Repr

/-- The full-replace branch (lines 113-121): the comprehension
`[{label, value, displayOrder: index, hidden: False} for index, (label, value)
in enumerate(enum_options.items())]`, with `idx` the running index of
`enumerate`. -/
def buildAllOptions (idx : Int) : CatMap → List EnumOption
  | [] => []
  | (label, value) :: rest =>
      ⟨label, value, idx, false⟩ :: buildAllOptions (idx + 1) rest

/-- The option-list reconciliation of `update_enumeration_property`
(lines 112-162), as a pure function of the freshly fetched existing options,
the category mapping, and the optional target `category_id`.  Returns the
recomputed option list and the reported `action`.

In the targeted non-empty branch both arms of the
`for label, value in enum_options.items()` loop end in `break`, so exactly
the first pair is processed; the carry-through loop (lines 160-162) then
appends every existing option whose `value` is not in
`enum_options.values()`. -/
def computeOptions (existing : List EnumOption) (enumOptions : CatMap)
    (categoryId : Option String) : List EnumOption × Action :=
  match categoryId with
  | none => (buildAllOptions 0 enumOptions, Action.all)
  | some cid =>
      match enumOptions with
      | [] => (List.filter (fun o => o.value ≠ cid) existing, Action.delete)
      | (label, value) :: rest =>
          match existingLookup existing value with
          | some ex =>
              (⟨label, value, ex.displayOrder, ex.hidden⟩ ::
                 List.filter
                   (fun o =>
                     ¬ (List.map Prod.snd ((label, value) :: rest)).contains o.value)
                   existing,
               Action.update)
          | none =>
              (⟨label, value, (existing.length : Int), false⟩ ::
                 List.filter
                   (fun o =>
                     ¬ (List.map Prod.snd ((label, value) :: rest)).contains o.value)
                   existing,
               Action.create)

/-- A property value as read from a search record; `category_id` is passed
through `str(...)` before being stored in the mapping. -/
inductive PropValue where
  | str (s : String)
  | num (n : Int)
deriving DecidableEq, Repr

/-- Python's `str(...)` on a property value. -/
def PropValue.toStr : PropValue → String
  | .str s => s
  | .num n => toString n

/-- One record of a search response page: the two selected properties. -/
structure SearchRecord where
  categoryName : String
  categoryId : PropValue
deriving DecidableEq, Repr

/-- One page of a search response (`api_response.results`). -/
structure SearchPage where
  records : List SearchRecord
deriving DecidableEq, Repr

/-- An API / transport error raised by an SDK call. -/
structure ApiErr where
  msg : String
deriving DecidableEq, Repr

/-- The inner `for result in api_response.results` loop (lines 81-84):
`categories[category_name] = str(category_id_result)` for each record. -/
def addRecords (acc : CatMap) (rs : List SearchRecord) : CatMap :=
  rs.foldl (fun m r => catInsert m r.categoryName r.categoryId.toStr) acc

/-- The `while True` pagination loop of `get_product_categories`
(lines 75-98).  The list holds, in cursor (`paging.next.after`) order, the
outcome of each `do_search` call; the accumulated mapping is returned when
the pages are exhausted, and any API error discards the accumulator and
returns the empty mapping (the `except` handlers, lines 93-98). -/
def fetchPages (acc : CatMap) : List (Except ApiErr SearchPage) → CatMap
  | [] => acc
  | Except.error _ :: _ => []
  | Except.ok p :: rest => fetchPages (addRecords acc p.records) rest

/-- `get_product_categories`, as a function of the sequence of search
responses the API produces. -/
def getProductCategories (pages : List (Except ApiErr SearchPage)) : CatMap :=
  fetchPages [] pages

/-- One schema of the schema-listing response of `get_object_type`. -/
structure Schema where
  name : String
  objectTypeId : String
deriving DecidableEq, Repr

/-- `get_object_type` (lines 25-43), as a function of the outcome of the
`client.crm.schemas.core_api.get_all()` call: scan the results for a schema
with the requested name, return its type id; return `none` when no schema
matches or when the call raised.  The function is total: no exception
propagates to the caller. -/
def getObjectType (resp : Except ApiErr (List Schema)) (objectName : String) :
    Option String :=
  match resp with
  | Except.error _ => none
  | Except.ok results =>
      (List.find? (fun s => s.name = objectName) results).map Schema.objectTypeId

/-- Specification-side description of the fetched mapping, following the
spec's words: "the union of all pages' (name, id) pairs, where on a name
collision the pair from the later page (or later position within a page)
overrides the earlier one, with each id coerced to a string" — i.e. a name
looks up to the id of the last record carrying that name. -/
def specUnionLookup (records : List SearchRecord) (name : String) : Option String :=
  (List.find? (fun r => r.categoryName = name) records.reverse).map
    (fun r => r.categoryId.toStr)

/-! ### Helper lemmas -/

theorem buildAllOptions_length (k : Int) (m : CatMap) :
    (buildAllOptions k m).length = m.length := by
  induction m generalizing k with
  | nil => rfl
  | cons p rest ih =>
      obtain ⟨label, value⟩ := p
      simp [buildAllOptions, ih]

theorem buildAllOptions_getElem (m : CatMap) (k : Int) (i : Nat) (hi : i < m.length) :
    (buildAllOptions k m)[i]? =
      some ⟨(m.get ⟨i, hi⟩).1, (m.get ⟨i, hi⟩).2, k + (i : Int), false⟩ := by
  induction m generalizing k i with
  | nil => simp at hi
  | cons p rest ih =>
      obtain ⟨label, value⟩ := p
      cases i with
      | zero => simp [buildAllOptions, List.get]
      | succ n =>
          have hn : n < rest.length := by
            simpa [Nat.succ_lt_succ_iff] using hi
          simp only [buildAllOptions, List.getElem?_cons_succ]
          rw [ih (k + 1) n hn]
          simp only [List.get, Option.some.injEq, EnumOption.mk.injEq, true_and,
            and_true]
          push_cast
          ring

theorem existingLookup_eq_none (existing : List EnumOption) (v : String)
    (h : ∀ o ∈ existing, o.value ≠ v) : existingLookup existing v = none := by
  rw [existingLookup, List.find?_eq_none]
  intro o ho
  simpa using h o (List.mem_reverse.mp ho)

theorem nodup_values_split (pre post : List EnumOption) (o : EnumOption)
    (hnd : ((pre ++ o :: post).map EnumOption.value).Nodup) :
    o.value ∉ pre.map EnumOption.value ∧ o.value ∉ post.map EnumOption.value := by
  simp only [List.map_append, List.map_cons, List.nodup_append,
    List.nodup_cons] at hnd
  exact ⟨fun hmem => hnd.2.2 hmem (by simp), hnd.2.1.1⟩

theorem existingLookup_of_nodup (pre post : List EnumOption) (o : EnumOption)
    (hnd : ((pre ++ o :: post).map EnumOption.value).Nodup) :
    existingLookup (pre ++ o :: post) o.value = some o := by
  obtain ⟨hpre, hpost⟩ := nodup_values_split pre post o hnd
  rw [existingLookup]
  have hrev : (pre ++ o :: post).reverse = post.reverse ++ o :: pre.reverse := by
    simp
  rw [hrev, List.find?_append]
  have h1 : List.find? (fun x => x.value = o.value) post.reverse = none := by
    rw [List.find?_eq_none]
    intro x hx
    have : x.value ∈ post.map EnumOption.value :=
      List.mem_map_of_mem _ (List.mem_reverse.mp hx)
    simp only [decide_eq_true_eq]
    intro hxv
    exact hpost (hxv ▸ this)
  rw [h1]
  simp [List.find?]

theorem filter_value_ne_of_nodup (pre post : List EnumOption) (o : EnumOption)
    (cid : String) (hv : o.value = cid)
    (hnd : ((pre ++ o :: post).map EnumOption.value).Nodup) :
    List.filter (fun x => x.value ≠ cid) (pre ++ o :: post) = pre ++ post := by
  obtain ⟨hpre, hpost⟩ := nodup_values_split pre post o hnd
  rw [List.filter_append, List.filter_cons]
  have ho : (decide (o.value ≠ cid)) = false := by simp [hv]
  rw [ho]
  have h1 : List.filter (fun x => x.value ≠ cid) pre = pre := by
    rw [List.filter_eq_self]
    intro a ha
    simp only [decide_eq_true_eq]
    intro hav
    exact hpre (by simpa [hv, hav] using List.mem_map_of_mem EnumOption.value ha)
  have h2 : List.filter (fun x => x.value ≠ cid) post = post := by
    rw [List.filter_eq_self]
    intro a ha
    simp only [decide_eq_true_eq]
    intro hav
    exact hpost (by simpa [hv, hav] using List.mem_map_of_mem EnumOption.value ha)
  rw [h1, h2]
  simp

theorem filter_eq_self_of_ne (l : List EnumOption) (cid : String)
    (h : ∀ o ∈ l, o.value ≠ cid) :
    List.filter (fun o => o.value ≠ cid) l = l := by
  rw [List.filter_eq_self]
  intro a ha
  simpa using h a ha

theorem filter_not_contains_singleton (l : List EnumOption) (cid : String) :
    List.filter (fun o => ¬ ([cid].contains o.value)) l =
      List.filter (fun o => o.value ≠ cid) l := by
  apply List.filter_congr
  intro a _
  simp [List.contains]

theorem catLookup_cons (k' v' : String) (rest : CatMap) (a : String) :
    catLookup ((k', v') :: rest) a =
      if k' = a then some v' else catLookup rest a := by
  by_cases h : k' = a <;> simp [catLookup, List.find?, h]

theorem catLookup_catInsert (m : CatMap) (k v a : String) :
    catLookup (catInsert m k v) a = if a = k then some v else catLookup m a := by
  induction m with
  | nil =>
      by_cases h : a = k
      · subst h
        simp [catInsert, catLookup, List.find?]
      · have h' : ¬ k = a := fun hc => h hc.symm
        simp [catInsert, catLookup, List.find?, h, h']
  | cons p rest ih =>
      obtain ⟨k', v'⟩ := p
      by_cases hk : k' = k
      · subst hk
        by_cases h : a = k'
        · subst h
          simp [catInsert, catLookup_cons]
        · have h' : ¬ k' = a := fun hc => h hc.symm
          simp [catInsert, catLookup_cons, h, h']
      · by_cases h : k' = a
        · subst h
          simp [catInsert, hk, catLookup_cons]
        · simp [catInsert, hk, catLookup_cons, h, ih]

theorem catLookup_addRecords (m : CatMap) (rs : List SearchRecord) (a : String) :
    catLookup (addRecords m rs) a =
      match List.find? (fun r => r.categoryName = a) rs.reverse with
      | some r => some r.categoryId.toStr
      | none => catLookup m a := by
  induction rs generalizing m with
  | nil => simp [addRecords]
  | cons r rest ih =>
      have hstep : addRecords m (r :: rest) =
          addRecords (catInsert m r.categoryName r.categoryId.toStr) rest := by
        simp [addRecords, List.foldl_cons]
      rw [hstep, ih]
      rw [List.reverse_cons, List.find?_append]
      cases hfind : List.find? (fun x => x.categoryName = a) rest.reverse with
      | some x => simp [Option.orElse]
      | none =>
          simp only [Option.orElse, Option.none_orElse]
          rw [catLookup_catInsert]
          by_cases h : a = r.categoryName
          · simp [List.find?, h]
          · have hne : ¬ (r.categoryName = a) := fun hc => h hc.symm
            simp [List.find?, hne, h]

theorem addRecords_append (m : CatMap) (rs rs2 : List SearchRecord) :
    addRecords (addRecords m rs) rs2 = addRecords m (rs ++ rs2) := by
  simp [addRecords, List.foldl_append]

theorem fetchPages_ok (acc : CatMap) (ps : List SearchPage) :
    fetchPages acc (ps.map Except.ok) =
      addRecords acc (ps.flatMap SearchPage.records) := by
  induction ps generalizing acc with
  | nil => simp [fetchPages, addRecords]
  | cons p rest ih =>
      simp only [List.map_cons, fetchPages, List.flatMap_cons]
      rw [ih, addRecords_append]

theorem fetchPages_error (acc : CatMap) (pages : List (Except ApiErr SearchPage))
    (h : ∃ e, Except.error e ∈ pages) : fetchPages acc pages = [] := by
  induction pages generalizing acc with
  | nil => simp at h
  | cons x rest ih =>
      cases x with
      | error e => rfl
      | ok p =>
          obtain ⟨e, he⟩ := h
          rcases List.mem_cons.mp he with hc | hc
          · cases hc
          · exact ih _ ⟨e, hc⟩

/-! ### Claim theorems -/

/-- C1: For every non-empty category mapping, running the reconciler in
full-replace mode (no target id) produces an option list whose length equals
the mapping's size, whose i-th option has label and value equal to the i-th
(name, id) pair of the mapping in iteration order, `displayOrder` equal to i
(strictly increasing from 0), and `hidden = false`, regardless of the
pre-existing option list. -/
theorem c1_full_replace (existing : List EnumOption) (m : CatMap) (_hm : m ≠ []) :
    (computeOptions existing m none).2 = Action.all ∧
    (computeOptions existing m none).1.length = m.length ∧
    ∀ i (hi : i < m.length),
      ((computeOptions existing m none).1)[i]? =
        some ⟨(m.get ⟨i, hi⟩).1, (m.get ⟨i, hi⟩).2, (i : Int), false⟩ := by
  refine ⟨rfl, ?_, ?_⟩
  · simpa [computeOptions] using buildAllOptions_length 0 m
  · intro i hi
    simpa [computeOptions] using buildAllOptions_getElem m 0 i hi

/-- Witness for C1: the spec's own scenario, mapping
{"Shoes": "1", "Hats": "2"} in full-sync mode. -/
theorem c1_full_replace_witness :
    ([("Shoes", "1"), ("Hats", "2")] : CatMap) ≠ [] ∧
    ((computeOptions [] [("Shoes", "1"), ("Hats", "2")] none).2 = Action.all ∧
     (computeOptions [] [("Shoes", "1"), ("Hats", "2")] none).1.length =
       ([("Shoes", "1"), ("Hats", "2")] : CatMap).length ∧
     ∀ i (hi : i < ([("Shoes", "1"), ("Hats", "2")] : CatMap).length),
       ((computeOptions [] [("Shoes", "1"), ("Hats", "2")] none).1)[i]? =
         some ⟨(([("Shoes", "1"), ("Hats", "2")] : CatMap).get ⟨i, hi⟩).1,
           (([("Shoes", "1"), ("Hats", "2")] : CatMap).get ⟨i, hi⟩).2,
           (i : Int), false⟩) :=
  ⟨by decide, c1_full_replace [] [("Shoes", "1"), ("Hats", "2")] (by decide)⟩

/-- C8: Full-replace is idempotent: applying the full-replace transform a
second time, starting from the option list produced by the first
application, yields the same result as applying it once (the rebuilt list
depends only on the mapping, never on the pre-existing options). -/
theorem c8_full_replace_idempotent (existing : List EnumOption) (m : CatMap) :
    computeOptions (computeOptions existing m none).1 m none =
      computeOptions existing m none := rfl

/-- C3: In targeted mode, when no existing option carries the mapping's id,
exactly one new option is added, with the given label and value,
`displayOrder` = the count of existing options and `hidden = false`, and
every pre-existing option passes through with its `value`, `label`,
`displayOrder` and `hidden` unchanged (the new option is placed at the front
of the list, see C10). -/
theorem c3_upsert_new (existing : List EnumOption) (label cid : String)
    (h : ∀ o ∈ existing, o.value ≠ cid) :
    computeOptions existing [(label, cid)] (some cid) =
      (⟨label, cid, (existing.length : Int), false⟩ :: existing,
       Action.create) := by
  have hnone : existingLookup existing cid = none :=
    existingLookup_eq_none existing cid h
  have hfil : List.filter
      (fun o => ¬ (List.map Prod.snd ((label, cid) :: ([] : CatMap))).contains
        o.value) existing = existing := by
    rw [List.filter_eq_self]
    intro a ha
    simpa using h a ha
  simp only [computeOptions, hnone, hfil]

/-- Witness for C3 at a concrete input. -/
theorem c3_upsert_new_witness :
    (∀ o ∈ ([⟨"A", "1", 0, false⟩] : List EnumOption), o.value ≠ "3") ∧
    computeOptions [⟨"A", "1", 0, false⟩] [("C", "3")] (some "3") =
      (⟨"C", "3", (([⟨"A", "1", 0, false⟩] : List EnumOption).length : Int),
          false⟩ :: [⟨"A", "1", 0, false⟩],
       Action.create) :=
  ⟨by decide, c3_upsert_new [⟨"A", "1", 0, false⟩] "C" "3" (by decide)⟩

/-- C2 counterexample: the claim quantifies over every existing option list,
but with two existing options sharing the value "x" the upsert of
{("New", "x")} collapses them into a single option, so the total option
count changes from 2 to 1, contradicting "the total option count is
unchanged". -/
theorem c2_counterexample :
    ¬ ((computeOptions [⟨"A", "x", 0, false⟩, ⟨"B", "x", 1, true⟩]
          [("New", "x")] (some "x")).1.length =
        ([⟨"A", "x", 0, false⟩, ⟨"B", "x", 1, true⟩] :
          List EnumOption).length) := by
  decide

/-- C2 (amended with the option values of the existing list being distinct,
as the data model requires): the option whose value is the target id has its
label replaced while `displayOrder` and `hidden` are preserved, the total
option count is unchanged, and every other pre-existing option keeps its
`value`, `label`, `displayOrder` and `hidden` (in original relative order;
the updated option moves to the front, see C10). -/
theorem c2_upsert_existing (existing : List EnumOption) (label cid : String)
    (hnd : (existing.map EnumOption.value).Nodup)
    (o : EnumOption) (ho : o ∈ existing) (hv : o.value = cid) :
    (computeOptions existing [(label, cid)] (some cid)).2 = Action.update ∧
    (computeOptions existing [(label, cid)] (some cid)).1.length =
      existing.length ∧
    ∃ pre post, existing = pre ++ o :: post ∧
      (computeOptions existing [(label, cid)] (some cid)).1 =
        ⟨label, cid, o.displayOrder, o.hidden⟩ :: (pre ++ post) := by
  obtain ⟨pre, post, hsplit⟩ := List.append_of_mem ho
  subst hsplit
  have hlook : existingLookup (pre ++ o :: post) cid = some o := by
    have h0 := existingLookup_of_nodup pre post o hnd
    rwa [hv] at h0
  have hfil : List.filter
      (fun x => ¬ (List.map Prod.snd ((label, cid) :: ([] : CatMap))).contains
        x.value) (pre ++ o :: post) = pre ++ post := by
    have hcongr : List.filter
        (fun x => ¬ (List.map Prod.snd ((label, cid) :: ([] : CatMap))).contains
          x.value) (pre ++ o :: post) =
        List.filter (fun x => x.value ≠ cid) (pre ++ o :: post) := by
      apply List.filter_congr
      intro a _
      simp [List.contains]
    rw [hcongr]
    exact filter_value_ne_of_nodup pre post o cid hv hnd
  refine ⟨?_, ?_, pre, post, rfl, ?_⟩
  · simp [computeOptions, hlook]
  · simp only [computeOptions, hlook, hfil]
    simp [List.length_append]
    omega
  · simp only [computeOptions, hlook, hfil]

/-- Witness for C2 (amended) at a concrete input. -/
theorem c2_upsert_existing_witness :
    (([⟨"A", "1", 0, false⟩, ⟨"B", "2", 5, true⟩] :
        List EnumOption).map EnumOption.value).Nodup ∧
    (⟨"B", "2", 5, true⟩ : EnumOption) ∈
      ([⟨"A", "1", 0, false⟩, ⟨"B", "2", 5, true⟩] : List EnumOption) ∧
    (⟨"B", "2", 5, true⟩ : EnumOption).value = "2" ∧
    ((computeOptions [⟨"A", "1", 0, false⟩, ⟨"B", "2", 5, true⟩]
        [("NewB", "2")] (some "2")).2 = Action.update ∧
     (computeOptions [⟨"A", "1", 0, false⟩, ⟨"B", "2", 5, true⟩]
        [("NewB", "2")] (some "2")).1.length =
       ([⟨"A", "1", 0, false⟩, ⟨"B", "2", 5, true⟩] :
         List EnumOption).length ∧
     ∃ pre post,
       ([⟨"A", "1", 0, false⟩, ⟨"B", "2", 5, true⟩] : List EnumOption) =
         pre ++ (⟨"B", "2", 5, true⟩ : EnumOption) :: post ∧
       (computeOptions [⟨"A", "1", 0, false⟩, ⟨"B", "2", 5, true⟩]
          [("NewB", "2")] (some "2")).1 =
         ⟨"NewB", "2", (⟨"B", "2", 5, true⟩ : EnumOption).displayOrder,
             (⟨"B", "2", 5, true⟩ : EnumOption).hidden⟩ :: (pre ++ post)) :=
  ⟨by decide, by decide, by decide,
   c2_upsert_existing [⟨"A", "1", 0, false⟩, ⟨"B", "2", 5, true⟩] "NewB" "2"
     (by decide) ⟨"B", "2", 5, true⟩ (by decide) (by decide)⟩

/-- C4: In delete mode (target id given, empty mapping), over existing lists
with unique values: if some option carries the target id, exactly that one
option is removed and the remaining options pass through unchanged in their
original order; if none does, the output equals the input; the reported
action is `delete` in both cases. -/
theorem c4_delete_mode (existing : List EnumOption) (cid : String)
    (hnd : (existing.map EnumOption.value).Nodup) :
    (computeOptions existing [] (some cid)).2 = Action.delete ∧
    ((∀ o ∈ existing, o.value ≠ cid) →
      (computeOptions existing [] (some cid)).1 = existing) ∧
    (∀ o ∈ existing, o.value = cid →
      ∃ pre post, existing = pre ++ o :: post ∧
        (computeOptions existing [] (some cid)).1 = pre ++ post) := by
  refine ⟨rfl, ?_, ?_⟩
  · intro h
    simp only [computeOptions]
    exact filter_eq_self_of_ne existing cid h
  · intro o ho hv
    obtain ⟨pre, post, hsplit⟩ := List.append_of_mem ho
    subst hsplit
    refine ⟨pre, post, rfl, ?_⟩
    simp only [computeOptions]
    exact filter_value_ne_of_nodup pre post o cid hv hnd

/-- Witness for C4 at a concrete input (the spec's scenario: target id "2"
present among the existing options). -/
theorem c4_delete_mode_witness :
    (([⟨"A", "1", 0, false⟩, ⟨"B", "2", 1, true⟩] :
        List EnumOption).map EnumOption.value).Nodup ∧
    ((computeOptions [⟨"A", "1", 0, false⟩, ⟨"B", "2", 1, true⟩] []
        (some "2")).2 = Action.delete ∧
     ((∀ o ∈ ([⟨"A", "1", 0, false⟩, ⟨"B", "2", 1, true⟩] : List EnumOption),
        o.value ≠ "2") →
       (computeOptions [⟨"A", "1", 0, false⟩, ⟨"B", "2", 1, true⟩] []
          (some "2")).1 =
         [⟨"A", "1", 0, false⟩, ⟨"B", "2", 1, true⟩]) ∧
     (∀ o ∈ ([⟨"A", "1", 0, false⟩, ⟨"B", "2", 1, true⟩] : List EnumOption),
        o.value = "2" →
        ∃ pre post,
          ([⟨"A", "1", 0, false⟩, ⟨"B", "2", 1, true⟩] : List EnumOption) =
            pre ++ o :: post ∧
          (computeOptions [⟨"A", "1", 0, false⟩, ⟨"B", "2", 1, true⟩] []
             (some "2")).1 = pre ++ post)) :=
  ⟨by decide,
   c4_delete_mode [⟨"A", "1", 0, false⟩, ⟨"B", "2", 1, true⟩] "2" (by decide)⟩

/-- Membership in the carry-through filter of the targeted branch. -/
theorem mem_filter_not_contains (l : List EnumOption) (vals : List String)
    (o : EnumOption) :
    o ∈ List.filter (fun x => ¬ vals.contains x.value) l ↔
      o ∈ l ∧ o.value ∉ vals := by
  simp [List.mem_filter]

/-- C5 counterexample: the pre-existing option ⟨"B", "b", 0, false⟩ has value
"b", different from the applied value "a" (the first pair of the mapping
[("La", "a"), ("Lb", "b")]), so the claim says it is carried through
unchanged into the output; the code drops it, because the carry-through
filter excludes every value of the whole mapping, not just the applied one. -/
theorem c5_counterexample :
    (⟨"B", "b", 0, false⟩ : EnumOption) ∉
      (computeOptions [⟨"B", "b", 0, false⟩] [("La", "a"), ("Lb", "b")]
        (some "a")).1 := by
  decide

/-- C5 (amended): in targeted mode with a non-empty mapping, only the first
(label, value) pair is applied — the output's head is the one option built
from it — and the remaining pairs contribute no option; a pre-existing
option is carried through (unchanged, after the head) exactly when its value
is among none of the mapping's values, so options matching a dropped pair's
value are removed, not carried through. -/
theorem c5_first_pair_only (existing : List EnumOption) (label value : String)
    (rest : CatMap) (cid : String) :
    ∃ firstOpt : EnumOption,
      firstOpt.label = label ∧ firstOpt.value = value ∧
      (computeOptions existing ((label, value) :: rest) (some cid)).1.head? =
        some firstOpt ∧
      (∀ o ∈ existing,
        o.value ∉ List.map Prod.snd ((label, value) :: rest) →
        o ∈ (computeOptions existing ((label, value) :: rest)
              (some cid)).1.tail) ∧
      (∀ o ∈ (computeOptions existing ((label, value) :: rest)
              (some cid)).1.tail,
        o ∈ existing ∧
          o.value ∉ List.map Prod.snd ((label, value) :: rest)) := by
  cases hlook : existingLookup existing value with
  | none =>
      refine ⟨⟨label, value, (existing.length : Int), false⟩, rfl, rfl, ?_, ?_, ?_⟩
      · simp only [computeOptions, hlook, List.head?]
      · intro o ho hv
        simp only [computeOptions, hlook, List.tail]
        exact (mem_filter_not_contains existing _ o).mpr ⟨ho, hv⟩
      · intro o ho
        simp only [computeOptions, hlook, List.tail] at ho
        exact (mem_filter_not_contains existing _ o).mp ho
  | some ex =>
      refine ⟨⟨label, value, ex.displayOrder, ex.hidden⟩, rfl, rfl, ?_, ?_, ?_⟩
      · simp only [computeOptions, hlook, List.head?]
      · intro o ho hv
        simp only [computeOptions, hlook, List.tail]
        exact (mem_filter_not_contains existing _ o).mpr ⟨ho, hv⟩
      · intro o ho
        simp only [computeOptions, hlook, List.tail] at ho
        exact (mem_filter_not_contains existing _ o).mp ho

/-- C10: in targeted mode with a non-empty mapping, the option built from
the mapping's first pair sits at position 0 of the output, and the rest of
the output is the carry-through filter of the pre-existing options — a
sublist of the original list, i.e. the surviving options keep their original
relative order.  In particular the upserted option's list position is not
preserved, even when (in the update case) its `displayOrder` is. -/
theorem c10_upsert_position (existing : List EnumOption) (label value : String)
    (rest : CatMap) (cid : String) :
    ∃ firstOpt : EnumOption,
      firstOpt.label = label ∧ firstOpt.value = value ∧
      (computeOptions existing ((label, value) :: rest) (some cid)).1 =
        firstOpt ::
          List.filter
            (fun o => ¬ (List.map Prod.snd ((label, value) :: rest)).contains
              o.value) existing ∧
      List.Sublist
        (List.filter
          (fun o => ¬ (List.map Prod.snd ((label, value) :: rest)).contains
            o.value) existing)
        existing := by
  cases hlook : existingLookup existing value with
  | none =>
      exact ⟨⟨label, value, (existing.length : Int), false⟩, rfl, rfl,
        by simp only [computeOptions, hlook], List.filter_sublist existing⟩
  | some ex =>
      exact ⟨⟨label, value, ex.displayOrder, ex.hidden⟩, rfl, rfl,
        by simp only [computeOptions, hlook], List.filter_sublist existing⟩

/-- C6: any API error during the category search makes the fetcher return
the empty mapping — the very value it returns when the search succeeds with
zero records — so the two situations are indistinguishable from the return
value alone. -/
theorem c6_search_error_empty (pages : List (Except ApiErr SearchPage))
    (h : ∃ e, Except.error e ∈ pages) :
    getProductCategories pages = [] ∧
    getProductCategories pages = getProductCategories [Except.ok ⟨[]⟩] := by
  have h1 : getProductCategories pages = [] := fetchPages_error [] pages h
  exact ⟨h1, by rw [h1]; rfl⟩

/-- Witness for C6: a successful first page followed by a failing search
call; the accumulated page is discarded. -/
theorem c6_search_error_empty_witness :
    (∃ e, Except.error e ∈
      ([Except.ok ⟨[⟨"Shoes", PropValue.num 1⟩]⟩, Except.error ⟨"boom"⟩] :
        List (Except ApiErr SearchPage))) ∧
    (getProductCategories
        [Except.ok ⟨[⟨"Shoes", PropValue.num 1⟩]⟩, Except.error ⟨"boom"⟩] =
      [] ∧
     getProductCategories
        [Except.ok ⟨[⟨"Shoes", PropValue.num 1⟩]⟩, Except.error ⟨"boom"⟩] =
      getProductCategories [Except.ok ⟨[]⟩]) :=
  ⟨⟨⟨"boom"⟩, by simp⟩,
   c6_search_error_empty
     [Except.ok ⟨[⟨"Shoes", PropValue.num 1⟩]⟩, Except.error ⟨"boom"⟩]
     ⟨⟨"boom"⟩, by simp⟩⟩

/-- C7: for every sequence of response pages (each up to 100 records)
consumed in cursor order, the fetcher's resulting mapping is extensionally
the union of all pages' (name, id) pairs, a later occurrence of a name
overriding an earlier one, each id coerced to a string
(`specUnionLookup` states this the way the spec words it). -/
theorem c7_pagination (pages : List SearchPage)
    (_hsize : ∀ p ∈ pages, p.records.length ≤ 100) (name : String) :
    catLookup (getProductCategories (pages.map Except.ok)) name =
      specUnionLookup (pages.flatMap SearchPage.records) name := by
  rw [getProductCategories, fetchPages_ok, catLookup_addRecords,
    specUnionLookup]
  cases hfind : List.find? (fun r => r.categoryName = name)
      (pages.flatMap SearchPage.records).reverse with
  | some r => simp
  | none => simp [catLookup]

/-- Witness for C7: two pages, name "Shoes" colliding across pages; the later
page's id wins, and the numeric id of the first page is string-coerced. -/
theorem c7_pagination_witness :
    (∀ p ∈ ([⟨[⟨"Shoes", PropValue.num 1⟩, ⟨"Hats", PropValue.str "2"⟩]⟩,
              ⟨[⟨"Shoes", PropValue.str "7"⟩]⟩] : List SearchPage),
      p.records.length ≤ 100) ∧
    catLookup
        (getProductCategories
          (([⟨[⟨"Shoes", PropValue.num 1⟩, ⟨"Hats", PropValue.str "2"⟩]⟩,
              ⟨[⟨"Shoes", PropValue.str "7"⟩]⟩] :
            List SearchPage).map Except.ok)) "Shoes" =
      specUnionLookup
        (([⟨[⟨"Shoes", PropValue.num 1⟩, ⟨"Hats", PropValue.str "2"⟩]⟩,
            ⟨[⟨"Shoes", PropValue.str "7"⟩]⟩] :
          List SearchPage).flatMap SearchPage.records) "Shoes" :=
  ⟨by decide,
   c7_pagination
     [⟨[⟨"Shoes", PropValue.num 1⟩, ⟨"Hats", PropValue.str "2"⟩]⟩,
      ⟨[⟨"Shoes", PropValue.str "7"⟩]⟩]
     (by decide) "Shoes"⟩

/-- C9: the type resolver returns `none` both when no schema in the listing
carries the requested name and when the schema-listing call raised an API
error; being a total function of the call's outcome, it propagates no
exception to its caller. -/
theorem c9_object_type_none (resp : Except ApiErr (List Schema))
    (objectName : String)
    (h : ∀ schemas, resp = Except.ok schemas →
      ∀ s ∈ schemas, s.name ≠ objectName) :
    getObjectType resp objectName = none := by
  cases resp with
  | error e => rfl
  | ok schemas =>
      have hfind : List.find? (fun s => s.name = objectName) schemas = none := by
        rw [List.find?_eq_none]
        intro s hs
        simpa using h schemas rfl s hs
      simp only [getObjectType, hfind]
      rfl

/-- Witness for C9: a failing schema-listing call resolves to `none`. -/
theorem c9_object_type_none_witness :
    (∀ schemas,
      (Except.error ⟨"down"⟩ : Except ApiErr (List Schema)) =
        Except.ok schemas →
      ∀ s ∈ schemas, s.name ≠ "product_categories") ∧
    getObjectType (Except.error ⟨"down"⟩) "product_categories" = none := by
  constructor
  · intro schemas heq
    cases heq
  · exact c9_object_type_none (Except.error ⟨"down"⟩) "product_categories"
      (by intro schemas heq; cases heq)

end HubspotSync
